import Mathlib

/-!
Shallow embedding of the ETL pipeline in `refresh_and_export.py`.

The script is a single-pass pipeline: header normalization, type coercion,
row filtering, exact-row deduplication, derivation of `Month`/`Day`,
then grouped-sum aggregations and chart construction (four static charts
plus one month-filtered interactive dashboard).

Modelling conventions:
* a pandas cell is a small inductive: the missing marker (`na`), an
  unparseable raw value (`invalid`), or a parsed value — the library
  parsers (`pd.to_datetime`, `pd.to_numeric`) are modelled at the level
  of "parse succeeded / failed", with a successful date parse producing a
  calendar `Date` value;
* floating-point weights are modelled as rationals;
* a table is a `List Row`; pandas `groupby(k).sum()` returns its groups
  with keys sorted ascending (the pandas default `sort=True`), modelled
  by an insertion sort over the deduplicated key list;
* Python `str.strip` is modelled by an explicit whitespace strip on the
  character list; `astype(str)` maps the missing marker to the string
  "nan" (which is what pandas produces) before `str.strip` runs.
-/

namespace RefreshExport

/-- Calendar date as produced by a successful `pd.to_datetime` parse
(time-of-day is not used by any downstream computation). -/
structure Date where
  year : Nat
  month : Nat
  day : Nat
  deriving DecidableEq

/-- A text cell: the missing marker (NaN) or a string value. -/
inductive TextCell where
  | na : TextCell
  | str : String → TextCell
  deriving DecidableEq

/-- A date cell: missing (NaT), unparseable raw text, or a parsed date. -/
inductive DateCell where
  | na : DateCell
  | invalid : String → DateCell
  | valid : Date → DateCell
  deriving DecidableEq

/-- A numeric cell: missing (NaN), unparseable raw text, or a number. -/
inductive NumCell where
  | na : NumCell
  | invalid : String → NumCell
  | valid : ℚ → NumCell
  deriving DecidableEq

/-- One row of the table, with the six required columns plus the derived
`Month` and `Day` columns (absent, i.e. `none`, until derivation — or
present already in the raw file, since unrecognized headers such as a
pre-existing `Month` column pass through the normalizer unchanged). -/
structure Row where
  channelName : TextCell
  productCategory : TextCell
  productName : TextCell
  salesCategory : TextCell
  date : DateCell
  netWeightKGs : NumCell
  month : Option String
  day : Option Date
  deriving DecidableEq

/-! ### Python string primitives -/

/-- Whitespace characters removed by Python `str.strip`. -/
def pyWhitespace (c : Char) : Bool :=
  c = ' ' || c = '\t' || c = '\n' || c = '\r' || c = '\x0b' || c = '\x0c' || c = '\u00A0'

/-- Remove trailing characters satisfying `p` (Python `str.rstrip`). -/
def stripRightList (p : Char → Bool) : List Char → List Char
  | [] => []
  | a :: t =>
    match stripRightList p t with
    | [] => if p a then [] else [a]
    | b :: u => a :: b :: u

/-- Remove leading then trailing characters satisfying `p`. -/
def stripChars (p : Char → Bool) (l : List Char) : List Char :=
  stripRightList p (l.dropWhile p)

/-- Python `str.strip()`. -/
def pyStrip (s : String) : String :=
  ⟨stripChars pyWhitespace s.data⟩

/-- Python `str.replace(c, "")`: remove every occurrence of `c`. -/
def removeAll (c : Char) (s : String) : String :=
  ⟨s.data.filter (fun a => a != c)⟩

/-- Python `str.lower()` (ASCII case mapping suffices here). -/
def pyLower (s : String) : String :=
  ⟨s.data.map Char.toLower⟩

/-! ### Schema normalizer (lines 35-60 of the script) -/

/-- Header cleanup applied to every column name: `str.strip()`, then
removal of byte-order marks, then removal of non-breaking spaces. -/
def stripHeader (s : String) : String :=
  removeAll '\u00A0' (removeAll '\uFEFF' (pyStrip s))

/-- Normalized lookup key: `col.lower().replace(" ", "").replace("_", "")`. -/
def normKey (s : String) : String :=
  removeAll '_' (removeAll ' ' (pyLower s))

/-- The fixed `rename_map` of the script. -/
def renameMap (k : String) : Option String :=
  if k = "channelname" then some "ChannelName"
  else if k = "productcategory" then some "ProductCategory"
  else if k = "date" then some "Date"
  else if k = "productname" then some "ProductName"
  else if k = "netweightkgs" then some "NetWeightKGs"
  else if k = "salescategory" then some "SalesCategory"
  else if k = "paymenttype" then some "PaymentType"
  else if k = "customername" then some "CustomerName"
  else none

/-- Full treatment of one header: cleanup, then `rename_map.get(key, col)`. -/
def normalizeHeader (h : String) : String :=
  (renameMap (normKey (stripHeader h))).getD (stripHeader h)

/-- The header row after normalization (`df.rename(columns=clean_cols)`
renames each column independently; nothing detects collisions). -/
def normalizeHeaders (hs : List String) : List String :=
  hs.map normalizeHeader

/-! ### Cleaner (lines 63-96 of the script) -/

/-- `pd.to_datetime(col, errors="coerce")`: unparseable becomes NaT. -/
def coerceDate : DateCell → DateCell
  | DateCell.na => DateCell.na
  | DateCell.invalid _ => DateCell.na
  | DateCell.valid d => DateCell.valid d

/-- `pd.to_numeric(col, errors="coerce").fillna(0)`: unparseable and
missing become `0`; a parsed number (of either sign) is kept as is. -/
def coerceNum : NumCell → NumCell
  | NumCell.na => NumCell.valid 0
  | NumCell.invalid _ => NumCell.valid 0
  | NumCell.valid q => NumCell.valid q

/-- `col.astype(str).fillna("").str.strip()`: `astype(str)` renders the
missing marker as the string "nan", so the `fillna("")` that follows it
never fires; then surrounding whitespace is stripped. -/
def coerceText : TextCell → TextCell
  | TextCell.na => TextCell.str (pyStrip "nan")
  | TextCell.str s => TextCell.str (pyStrip s)

/-- All per-cell coercions of the cleaning stage applied to one row. -/
def coerceRow (r : Row) : Row :=
  { r with
    date := coerceDate r.date
    netWeightKGs := coerceNum r.netWeightKGs
    channelName := coerceText r.channelName
    productCategory := coerceText r.productCategory
    productName := coerceText r.productName
    salesCategory := coerceText r.salesCategory }

/-- `dropna(subset=["Date"])` keeps a row iff its date cell is not the
missing marker (an `invalid` cell would be an ordinary value to pandas,
but date coercion has already turned every `invalid` into `na`). -/
def dateNotNa : DateCell → Bool
  | DateCell.na => false
  | _ => true

/-- `df[df[col] != ""]` keeps a row iff the cell differs from the empty
string (a NaN cell would compare unequal and be kept, but text coercion
has already removed every `na`). -/
def textNonEmpty : TextCell → Bool
  | TextCell.na => true
  | TextCell.str s => !(s == "")

/-- The three row filters of the script, in source order. -/
def filterRows (t : List Row) : List Row :=
  ((t.filter (fun r => dateNotNa r.date)).filter
      (fun r => textNonEmpty r.productName)).filter
    (fun r => textNonEmpty r.channelName)

/-- Generic first-occurrence deduplication with an accumulator of
already-seen elements. -/
def dedupFirst {α : Type} [DecidableEq α] (seen : List α) : List α → List α
  | [] => []
  | a :: l => if a ∈ seen then dedupFirst seen l else a :: dedupFirst (a :: seen) l

/-- `df.drop_duplicates()`: drop exact duplicates, keeping the first. -/
def dropDuplicates (t : List Row) : List Row :=
  dedupFirst [] t

/-- Two-digit zero-padded decimal rendering. -/
def pad2 (n : Nat) : String :=
  if n < 10 then "0" ++ toString n else toString n

/-- Four-digit zero-padded decimal rendering. -/
def pad4 (n : Nat) : String :=
  if n < 10 then "000" ++ toString n
  else if n < 100 then "00" ++ toString n
  else if n < 1000 then "0" ++ toString n
  else toString n

/-- `Date.dt.to_period("M").astype(str)`: the `YYYY-MM` month label. -/
def formatMonth (d : Date) : String :=
  pad4 d.year ++ "-" ++ pad2 d.month

/-- Derivation of the `Month` and `Day` columns from `Date`, overwriting
whatever those columns previously held (the fallback branch is
unreachable after filtering, which guarantees a parsed date). -/
def derive (r : Row) : Row :=
  match r.date with
  | DateCell.valid d => { r with month := some (formatMonth d), day := some d }
  | _ => r

/-- The full cleaning stage: per-cell coercions, the three row filters,
exact-duplicate removal, then derivation of `Month` and `Day`. -/
def clean (t : List Row) : List Row :=
  (dropDuplicates (filterRows (t.map coerceRow))).map derive

/-! ### Aggregator / chart builder (lines 99-258 of the script) -/

/-- The numeric value a cell contributes to a pandas sum (`na` is
skipped by `sum`, i.e. contributes zero; unreachable after cleaning). -/
def rowWeight (r : Row) : ℚ :=
  match r.netWeightKGs with
  | NumCell.valid q => q
  | _ => 0

/-- Sum of `NetWeightKGs` over a table. -/
def sumWeights (t : List Row) : ℚ :=
  (t.map rowWeight).sum

/-- The string shown for a text cell when used as a grouping key. -/
def textVal : TextCell → String
  | TextCell.na => "nan"
  | TextCell.str s => s

/-- Grouping key for `groupby("ChannelName")`. -/
def chanOf (r : Row) : String := textVal r.channelName

/-- Grouping key for `groupby("SalesCategory")`. -/
def salesOf (r : Row) : String := textVal r.salesCategory

/-- Grouping key for `groupby("ProductName")`. -/
def prodOf (r : Row) : String := textVal r.productName

/-- Grouping key for `groupby("Month")`. -/
def monthLabel (r : Row) : String := r.month.getD ""

/-- Strict lexicographic comparison of character lists by code point,
the order Python's `sorted` uses on strings. -/
def strLtList : List Char → List Char → Bool
  | [], [] => false
  | [], _ :: _ => true
  | _ :: _, [] => false
  | a :: as, b :: bs =>
    if a.toNat < b.toNat then true
    else if b.toNat < a.toNat then false
    else strLtList as bs

/-- Non-strict lexicographic comparison of character lists. -/
def strLeList : List Char → List Char → Bool
  | [], _ => true
  | _ :: _, [] => false
  | a :: as, b :: bs =>
    if a.toNat < b.toNat then true
    else if b.toNat < a.toNat then false
    else strLeList as bs

/-- Strict string comparison by code point. -/
def strLt (a b : String) : Bool := strLtList a.data b.data

/-- Non-strict string comparison by code point. -/
def strLe (a b : String) : Bool := strLeList a.data b.data

/-- Ascending sort of a list of strings (Python `sorted`, pandas
`groupby(sort=True)` key order). -/
def sortStr (l : List String) : List String :=
  l.insertionSort (fun a b => strLe a b = true)

/-- The distinct values of a key column, in ascending order: both the
index of `groupby(f).sum()` and `sorted(df[col].unique())`. -/
def uniqueKeys (t : List Row) (f : Row → String) : List String :=
  sortStr (dedupFirst [] (t.map f))

/-- `df.groupby(f)["NetWeightKGs"].sum()`: one `(key, sum)` pair per
distinct key, keys in ascending order. -/
def groupSum (t : List Row) (f : Row → String) : List (String × ℚ) :=
  (uniqueKeys t f).map (fun k => (k, sumWeights (t.filter (fun r => f r == k))))

/-- `sorted(df["Month"].unique())`. -/
def uniqueMonths (t : List Row) : List String :=
  uniqueKeys t monthLabel

/-- Insertion step for a descending sort of `(key, value)` pairs. -/
def insertDescPair (x : String × ℚ) : List (String × ℚ) → List (String × ℚ)
  | [] => [x]
  | y :: l => if y.2 < x.2 then x :: y :: l else y :: insertDescPair x l

/-- `series.sort_values(ascending=False)` keeping key/value pairs
together (used by the static channel chart via `reset_index`). -/
def sortDescPairs : List (String × ℚ) → List (String × ℚ)
  | [] => []
  | x :: l => insertDescPair x (sortDescPairs l)

/-- Insertion step for a descending sort of bare values. -/
def insertDescVal (q : ℚ) : List ℚ → List ℚ
  | [] => [q]
  | x :: l => if x < q then q :: x :: l else x :: insertDescVal q l

/-- `series.sort_values(ascending=False).values`: the values alone,
descending. -/
def sortDescVals : List ℚ → List ℚ
  | [] => []
  | x :: l => insertDescVal x (sortDescVals l)

/-- The static channel chart: per-channel sums, descending by value,
with key and value moved together (`sort_values` then `reset_index`). -/
def channelChart (t : List Row) : List (String × ℚ) :=
  sortDescPairs (groupSum t chanOf)

/-- X axis of the static month-trend chart: `sorted(df["Month"].unique())`. -/
def monthTrendX (t : List Row) : List String :=
  uniqueMonths t

/-- Y axis of the static month-trend chart: the per-month sums reindexed
by the sorted month list (which is already the groupby key order). -/
def monthTrendY (t : List Row) : List ℚ :=
  (groupSum t monthLabel).map Prod.snd

/-- `df[df["Month"] == m]`. -/
def filterMonth (t : List Row) (m : String) : List Row :=
  t.filter (fun r => monthLabel r == m)

/-- X array of a filtered dashboard panel: `groupby(f).sum().index`,
i.e. the keys in ascending order. -/
def panelX (t : List Row) (f : Row → String) : List String :=
  (groupSum t f).map Prod.fst

/-- Y array of a filtered dashboard panel:
`groupby(f).sum().sort_values(ascending=False).values`, i.e. the sums
in descending order — written by the script independently of the x
array's key order. -/
def panelY (t : List Row) (f : Row → String) : List ℚ :=
  sortDescVals ((groupSum t f).map Prod.snd)

/-- One dropdown button: its label and the four x and four y arrays its
`update` method writes into the four traces (channel, sales category,
product, month trend — in trace order). -/
structure Button where
  label : String
  xs : List (List String)
  ys : List (List ℚ)
  deriving DecidableEq

/-- The button built for month `m` (lines 219-244 of the script). -/
def buttonFor (t : List Row) (m : String) : Button :=
  { label := m
    xs := [panelX (filterMonth t m) chanOf,
           panelX (filterMonth t m) salesOf,
           panelX (filterMonth t m) prodOf,
           (groupSum t monthLabel).map Prod.fst]
    ys := [panelY (filterMonth t m) chanOf,
           panelY (filterMonth t m) salesOf,
           panelY (filterMonth t m) prodOf,
           (groupSum t monthLabel).map Prod.snd] }

/-- The interactive dashboard: the four initial traces plus one button
per distinct month. -/
structure Dashboard where
  chanX : List String
  chanY : List ℚ
  salesX : List String
  salesY : List ℚ
  prodX : List String
  prodY : List ℚ
  trendX : List String
  trendY : List ℚ
  buttons : List Button
  deriving DecidableEq

/-- Construction of the interactive dashboard. `unique_months[0]` raises
an `IndexError` when the cleaned table has no rows, modelled as `none`. -/
def buildInteractive (t : List Row) : Option Dashboard :=
  match uniqueMonths t with
  | [] => none
  | m0 :: _ =>
    some { chanX := panelX (filterMonth t m0) chanOf
           chanY := panelY (filterMonth t m0) chanOf
           salesX := panelX (filterMonth t m0) salesOf
           salesY := panelY (filterMonth t m0) salesOf
           prodX := panelX (filterMonth t m0) prodOf
           prodY := panelY (filterMonth t m0) prodOf
           trendX := (groupSum t monthLabel).map Prod.fst
           trendY := (groupSum t monthLabel).map Prod.snd
           buttons := (uniqueMonths t).map (buttonFor t) }

/-- The conjunction of the three row-filter predicates (the script applies
them as three separate filters; `keepRow` is their combined effect). -/
def keepRow (r : Row) : Bool :=
  dateNotNa r.date && textNonEmpty r.productName && textNonEmpty r.channelName

/-- Proof helper (not part of the program): forget the derived columns. -/
def undoDerive (r : Row) : Row :=
  { r with month := none, day := none }

/-- The trend panel data (x and y arrays of the fourth trace) of the
interactive dashboard, when it was built successfully. -/
def dashTrend (t : List Row) : Option (List String × List ℚ) :=
  (buildInteractive t).map (fun d => (d.trendX, d.trendY))

/-- The button list of the interactive dashboard, when it was built
successfully. -/
def dashButtons (t : List Row) : Option (List Button) :=
  (buildInteractive t).map Dashboard.buttons

/-! ### Concrete tables used as test inputs -/

/-- A well-formed January row: channel "A", product "P", weight 100. -/
def exRow : Row :=
  { channelName := TextCell.str "A", productCategory := TextCell.str "C",
    productName := TextCell.str "P", salesCategory := TextCell.str "S",
    date := DateCell.valid ⟨2024, 1, 5⟩, netWeightKGs := NumCell.valid 100,
    month := none, day := none }

/-- A well-formed February row: channel "B", product "Q", weight 1. -/
def febRow : Row :=
  { channelName := TextCell.str "B", productCategory := TextCell.str "C",
    productName := TextCell.str "Q", salesCategory := TextCell.str "S",
    date := DateCell.valid ⟨2024, 2, 10⟩, netWeightKGs := NumCell.valid 1,
    month := none, day := none }

/-- A row whose weight cell parsed to the negative number -3. -/
def negWeightRow : Row :=
  { channelName := TextCell.str "A", productCategory := TextCell.str "C",
    productName := TextCell.str "P", salesCategory := TextCell.str "S",
    date := DateCell.valid ⟨2024, 1, 5⟩, netWeightKGs := NumCell.valid (-3),
    month := none, day := none }

/-- A row whose `ChannelName` cell is the missing marker. -/
def naChannelRow : Row :=
  { channelName := TextCell.na, productCategory := TextCell.str "C",
    productName := TextCell.str "P", salesCategory := TextCell.str "S",
    date := DateCell.valid ⟨2024, 1, 5⟩, netWeightKGs := NumCell.valid 2,
    month := none, day := none }

/-- A row carrying a pre-existing `Month` column value "x" (the header
"Month" is not in `rename_map`, so such a column passes through). -/
def presetMonthRowA : Row :=
  { channelName := TextCell.str "A", productCategory := TextCell.str "C",
    productName := TextCell.str "P", salesCategory := TextCell.str "S",
    date := DateCell.valid ⟨2024, 1, 5⟩, netWeightKGs := NumCell.valid 2,
    month := some "x", day := none }

/-- Identical to `presetMonthRowA` except for the pre-existing `Month`
value "y". -/
def presetMonthRowB : Row :=
  { channelName := TextCell.str "A", productCategory := TextCell.str "C",
    productName := TextCell.str "P", salesCategory := TextCell.str "S",
    date := DateCell.valid ⟨2024, 1, 5⟩, netWeightKGs := NumCell.valid 2,
    month := some "y", day := none }

/-- January row with channel "A" and weight 1 (same month as `chanBRow`). -/
def chanARow : Row :=
  { channelName := TextCell.str "A", productCategory := TextCell.str "C",
    productName := TextCell.str "P", salesCategory := TextCell.str "S",
    date := DateCell.valid ⟨2024, 1, 5⟩, netWeightKGs := NumCell.valid 1,
    month := none, day := none }

/-- January row with channel "B" and weight 2 (same month as `chanARow`). -/
def chanBRow : Row :=
  { channelName := TextCell.str "B", productCategory := TextCell.str "C",
    productName := TextCell.str "P", salesCategory := TextCell.str "S",
    date := DateCell.valid ⟨2024, 1, 5⟩, netWeightKGs := NumCell.valid 2,
    month := none, day := none }

/-! ### Basic lemmas about the string order -/

theorem charEqOfToNat {a b : Char} (h : a.toNat = b.toNat) : a = b :=
  Char.ext_iff.mpr (UInt32.ext_iff.mpr h)

theorem strLeList_total : ∀ as bs : List Char,
    strLeList as bs = true ∨ strLeList bs as = true := by
  intro as
  induction as with
  | nil => intro bs; left; rfl
  | cons a as ih =>
    intro bs
    cases bs with
    | nil => right; rfl
    | cons b bs =>
      rcases Nat.lt_trichotomy a.toNat b.toNat with h | h | h
      · left; simp [strLeList, h]
      · have h1 : ¬ a.toNat < b.toNat := by omega
        have h2 : ¬ b.toNat < a.toNat := by omega
        rcases ih bs with hc | hc
        · left; simp [strLeList, h1, h2, hc]
        · right; simp [strLeList, h1, h2, hc]
      · right; simp [strLeList, h]

theorem strLeList_trans : ∀ as bs cs : List Char,
    strLeList as bs = true → strLeList bs cs = true → strLeList as cs = true := by
  intro as
  induction as with
  | nil => intro bs cs _ _; rfl
  | cons a as ih =>
    intro bs cs h1 h2
    cases bs with
    | nil => simp [strLeList] at h1
    | cons b bs =>
      cases cs with
      | nil => simp [strLeList] at h2
      | cons c cs =>
        by_cases hab : a.toNat < b.toNat
        · by_cases hbc : b.toNat < c.toNat
          · have hac : a.toNat < c.toNat := Nat.lt_trans hab hbc
            simp [strLeList, hac]
          · by_cases hcb : c.toNat < b.toNat
            · simp [strLeList, hbc, hcb] at h2
            · have hac : a.toNat < c.toNat := by omega
              simp [strLeList, hac]
        · by_cases hba : b.toNat < a.toNat
          · simp [strLeList, hab, hba] at h1
          · by_cases hbc : b.toNat < c.toNat
            · have hac : a.toNat < c.toNat := by omega
              simp [strLeList, hac]
            · by_cases hcb : c.toNat < b.toNat
              · simp [strLeList, hbc, hcb] at h2
              · have h1' : strLeList as bs = true := by
                  simpa [strLeList, hab, hba] using h1
                have h2' : strLeList bs cs = true := by
                  simpa [strLeList, hbc, hcb] using h2
                have hac : ¬ a.toNat < c.toNat := by omega
                have hca : ¬ c.toNat < a.toNat := by omega
                simp [strLeList, hac, hca, ih bs cs h1' h2']

theorem strLtList_of_le_of_ne : ∀ as bs : List Char,
    strLeList as bs = true → as ≠ bs → strLtList as bs = true := by
  intro as
  induction as with
  | nil =>
    intro bs h hne
    cases bs with
    | nil => exact absurd rfl hne
    | cons b bs => rfl
  | cons a as ih =>
    intro bs h hne
    cases bs with
    | nil => simp [strLeList] at h
    | cons b bs =>
      by_cases hab : a.toNat < b.toNat
      · simp [strLtList, hab]
      · by_cases hba : b.toNat < a.toNat
        · simp [strLeList, hab, hba] at h
        · have hcc : a = b := charEqOfToNat (by omega)
          have h' : strLeList as bs = true := by simpa [strLeList, hab, hba] using h
          have hne' : as ≠ bs := fun hh => hne (by rw [hcc, hh])
          simp [strLtList, hab, hba, ih bs h' hne']

instance strLeIsTotal : IsTotal String (fun a b => strLe a b = true) :=
  ⟨fun a b => strLeList_total a.data b.data⟩

instance strLeIsTrans : IsTrans String (fun a b => strLe a b = true) :=
  ⟨fun a b c => strLeList_trans a.data b.data c.data⟩

theorem strLt_of_le_of_ne {a b : String} (h : strLe a b = true) (hne : a ≠ b) :
    strLt a b = true :=
  strLtList_of_le_of_ne a.data b.data h (fun hh => hne (String.toList_inj.mp hh))

theorem sortStr_sorted (l : List String) :
    (sortStr l).Sorted (fun a b => strLe a b = true) :=
  List.sorted_insertionSort _ l

theorem sortStr_perm (l : List String) : List.Perm (sortStr l) l :=
  List.perm_insertionSort _ l

/-! ### Basic lemmas about first-occurrence deduplication -/

theorem mem_dedupFirst {α : Type} [DecidableEq α] :
    ∀ (l seen : List α) (x : α), x ∈ dedupFirst seen l ↔ x ∈ l ∧ x ∉ seen := by
  intro l
  induction l with
  | nil => intro seen x; simp [dedupFirst]
  | cons a l ih =>
    intro seen x
    by_cases h : a ∈ seen
    · rw [show dedupFirst seen (a :: l) = dedupFirst seen l from by
        simp [dedupFirst, h]]
      rw [ih]
      constructor
      · rintro ⟨hx, hs⟩; exact ⟨List.mem_cons_of_mem _ hx, hs⟩
      · rintro ⟨hx, hs⟩
        rcases List.mem_cons.mp hx with rfl | hx
        · exact absurd h hs
        · exact ⟨hx, hs⟩
    · rw [show dedupFirst seen (a :: l) = a :: dedupFirst (a :: seen) l from by
        simp [dedupFirst, h]]
      simp only [List.mem_cons, ih]
      constructor
      · rintro (rfl | ⟨hl, hs⟩)
        · exact ⟨Or.inl rfl, h⟩
        · exact ⟨Or.inr hl, fun hh => hs (Or.inr hh)⟩
      · rintro ⟨rfl | hl, hs⟩
        · exact Or.inl rfl
        · by_cases hx : x = a
          · exact Or.inl hx
          · exact Or.inr ⟨hl, fun hh => hh.elim hx hs⟩

theorem nodup_dedupFirst {α : Type} [DecidableEq α] :
    ∀ (l seen : List α), (dedupFirst seen l).Nodup := by
  intro l
  induction l with
  | nil => intro seen; simp [dedupFirst]
  | cons a l ih =>
    intro seen
    by_cases h : a ∈ seen
    · simpa [dedupFirst, h] using ih seen
    · rw [show dedupFirst seen (a :: l) = a :: dedupFirst (a :: seen) l from by
        simp [dedupFirst, h]]
      refine List.nodup_cons.mpr ⟨fun hm => ?_, ih (a :: seen)⟩
      exact ((mem_dedupFirst l (a :: seen) a).mp hm).2 (List.mem_cons_self a seen)

theorem dedupFirst_eq_self {α : Type} [DecidableEq α] :
    ∀ (l seen : List α), l.Nodup → (∀ x ∈ l, x ∉ seen) → dedupFirst seen l = l := by
  intro l
  induction l with
  | nil => intro seen _ _; rfl
  | cons a l ih =>
    intro seen hnd hs
    have ha : a ∉ seen := hs a (List.mem_cons_self a l)
    rw [show dedupFirst seen (a :: l) = a :: dedupFirst (a :: seen) l from by
      simp [dedupFirst, ha]]
    have hnd' := List.nodup_cons.mp hnd
    rw [ih (a :: seen) hnd'.2 (fun x hx => fun hh => by
      rcases List.mem_cons.mp hh with h1 | h1
      · exact hnd'.1 (h1 ▸ hx)
      · exact hs x (List.mem_cons_of_mem _ hx) h1)]

/-! ### Idempotence of the strip primitives -/

theorem stripRightList_cons (p : Char → Bool) (a : Char) (t : List Char) :
    stripRightList p (a :: t) =
      match stripRightList p t with
      | [] => if p a then [] else [a]
      | b :: u => a :: b :: u := rfl

theorem stripRightList_idem (p : Char → Bool) :
    ∀ l : List Char, stripRightList p (stripRightList p l) = stripRightList p l := by
  intro l
  induction l with
  | nil => rfl
  | cons a t ih =>
    cases h : stripRightList p t with
    | nil =>
      by_cases hp : p a
      · have h2 : stripRightList p (a :: t) = [] := by
          rw [stripRightList_cons, h]; simp [hp]
        rw [h2]; rfl
      · have h2 : stripRightList p (a :: t) = [a] := by
          rw [stripRightList_cons, h]; simp [hp]
        rw [h2, stripRightList_cons]; simp [hp, stripRightList]
    | cons b u =>
      have hbu : stripRightList p (b :: u) = b :: u := by rw [← h, ih]
      have h2 : stripRightList p (a :: t) = a :: b :: u := by
        rw [stripRightList_cons, h]
      rw [h2, stripRightList_cons, hbu]

theorem stripRightList_head (p : Char → Bool) (a : Char) (t : List Char) :
    stripRightList p (a :: t) = [] ∨ ∃ u, stripRightList p (a :: t) = a :: u := by
  cases h : stripRightList p t with
  | nil =>
    by_cases hp : p a
    · left; rw [stripRightList_cons, h]; simp [hp]
    · right; exact ⟨[], by rw [stripRightList_cons, h]; simp [hp]⟩
  | cons b u => right; exact ⟨b :: u, by rw [stripRightList_cons, h]⟩

theorem dropWhile_head_false (p : Char → Bool) :
    ∀ (l : List Char) a t, l.dropWhile p = a :: t → p a = false := by
  intro l
  induction l with
  | nil => intro a t h; simp [List.dropWhile] at h
  | cons b l ih =>
    intro a t h
    by_cases hb : p b
    · rw [List.dropWhile_cons_of_pos hb] at h; exact ih a t h
    · rw [List.dropWhile_cons_of_neg hb] at h
      cases h; simpa using hb

theorem dropWhile_stripChars (p : Char → Bool) (l : List Char) :
    (stripChars p l).dropWhile p = stripChars p l := by
  unfold stripChars
  cases h : l.dropWhile p with
  | nil => simp [stripRightList]
  | cons a t =>
    have ha : p a = false := dropWhile_head_false p l a t h
    rcases stripRightList_head p a t with h2 | ⟨u, h2⟩
    · simp [h2]
    · rw [h2, List.dropWhile_cons_of_neg (by simp [ha])]

theorem stripChars_idem (p : Char → Bool) (l : List Char) :
    stripChars p (stripChars p l) = stripChars p l := by
  conv_lhs => rw [stripChars, dropWhile_stripChars]
  rw [stripChars, stripRightList_idem]

theorem pyStrip_idem (s : String) : pyStrip (pyStrip s) = pyStrip s := by
  unfold pyStrip
  exact congrArg String.mk (stripChars_idem pyWhitespace s.data)

/-! ### Lemmas about the cleaning stage -/

theorem sumWeights_cons (r : Row) (t : List Row) :
    sumWeights (r :: t) = rowWeight r + sumWeights t := by
  simp [sumWeights]

theorem sumWeights_nil : sumWeights ([] : List Row) = 0 := rfl

theorem coerceDate_idem (c : DateCell) : coerceDate (coerceDate c) = coerceDate c := by
  cases c <;> rfl

theorem coerceNum_idem (c : NumCell) : coerceNum (coerceNum c) = coerceNum c := by
  cases c <;> rfl

theorem coerceText_idem (c : TextCell) : coerceText (coerceText c) = coerceText c := by
  cases c <;> simp [coerceText, pyStrip_idem]

theorem coerceRow_idem (r : Row) : coerceRow (coerceRow r) = coerceRow r := by
  simp [coerceRow, coerceDate_idem, coerceNum_idem, coerceText_idem]

theorem derive_date (r : Row) : (derive r).date = r.date := by
  cases h : r.date <;> simp [derive, h]

theorem derive_channelName (r : Row) : (derive r).channelName = r.channelName := by
  cases h : r.date <;> simp [derive, h]

theorem derive_productName (r : Row) : (derive r).productName = r.productName := by
  cases h : r.date <;> simp [derive, h]

theorem derive_netWeightKGs (r : Row) : (derive r).netWeightKGs = r.netWeightKGs := by
  cases h : r.date <;> simp [derive, h]

theorem coerceRow_derive (r : Row) (h : coerceRow r = r) :
    coerceRow (derive r) = derive r := by
  cases hd : r.date with
  | na => simp [derive, hd, h]
  | invalid s => simp [derive, hd, h]
  | valid d =>
    have h1 : derive r = { r with month := some (formatMonth d), day := some d } := by
      simp [derive, hd]
    have h2 : coerceRow { r with month := some (formatMonth d), day := some d }
        = { coerceRow r with month := some (formatMonth d), day := some d } := rfl
    rw [h1, h2, h]

theorem derive_idem (r : Row) : derive (derive r) = derive r := by
  cases hd : r.date with
  | na => simp [derive, hd]
  | invalid s => simp [derive, hd]
  | valid d =>
    have h1 : derive r = { r with month := some (formatMonth d), day := some d } := by
      simp [derive, hd]
    rw [h1]
    simp only [derive]
    rw [hd]

theorem undoDerive_derive (r : Row) (h1 : r.month = none) (h2 : r.day = none) :
    undoDerive (derive r) = r := by
  cases hd : r.date with
  | na =>
    rw [show derive r = r from by simp [derive, hd]]
    unfold undoDerive
    cases r
    simp_all
  | invalid s =>
    rw [show derive r = r from by simp [derive, hd]]
    unfold undoDerive
    cases r
    simp_all
  | valid d =>
    rw [show derive r = { r with month := some (formatMonth d), day := some d } from by
      simp [derive, hd]]
    unfold undoDerive
    cases r
    simp_all

theorem derive_inj_on (x y : Row) (hx : x.month = none ∧ x.day = none)
    (hy : y.month = none ∧ y.day = none) (h : derive x = derive y) : x = y := by
  rw [← undoDerive_derive x hx.1 hx.2, ← undoDerive_derive y hy.1 hy.2, h]

theorem mem_preclean (t : List Row) (x : Row)
    (hx : x ∈ dropDuplicates (filterRows (t.map coerceRow))) :
    ∃ r1 ∈ t, x = coerceRow r1
      ∧ dateNotNa (coerceRow r1).date = true
      ∧ textNonEmpty (coerceRow r1).productName = true
      ∧ textNonEmpty (coerceRow r1).channelName = true := by
  unfold dropDuplicates at hx
  have h3 := ((mem_dedupFirst _ _ _).mp hx).1
  unfold filterRows at h3
  rcases List.mem_filter.mp h3 with ⟨h4, hchan⟩
  rcases List.mem_filter.mp h4 with ⟨h5, hprod⟩
  rcases List.mem_filter.mp h5 with ⟨h6, hdate⟩
  rcases List.mem_map.mp h6 with ⟨r1, h7, rfl⟩
  exact ⟨r1, h7, rfl, hdate, hprod, hchan⟩

theorem mem_clean (t : List Row) (r : Row) (h : r ∈ clean t) :
    ∃ r1 ∈ t, r = derive (coerceRow r1)
      ∧ dateNotNa (coerceRow r1).date = true
      ∧ textNonEmpty (coerceRow r1).productName = true
      ∧ textNonEmpty (coerceRow r1).channelName = true := by
  unfold clean at h
  rcases List.mem_map.mp h with ⟨r2, h2, rfl⟩
  rcases mem_preclean t r2 h2 with ⟨r1, hr1, rfl, hd, hp, hc⟩
  exact ⟨r1, hr1, rfl, hd, hp, hc⟩

theorem coerceNum_valid (c : NumCell) : ∃ q, coerceNum c = NumCell.valid q := by
  cases c <;> exact ⟨_, rfl⟩

theorem coerceText_str (c : TextCell) :
    ∃ s, coerceText c = TextCell.str s ∧ pyStrip s = s := by
  cases c with
  | na => exact ⟨pyStrip "nan", rfl, pyStrip_idem "nan"⟩
  | str s => exact ⟨pyStrip s, rfl, pyStrip_idem s⟩

theorem coerceDate_valid_of (c : DateCell) (h : dateNotNa (coerceDate c) = true) :
    ∃ d, coerceDate c = DateCell.valid d := by
  cases c with
  | na => simp [coerceDate, dateNotNa] at h
  | invalid s => simp [coerceDate, dateNotNa] at h
  | valid d => exact ⟨d, rfl⟩

/-! ### Claim C4: header normalization -/

/-- C4: a raw header whose normalized key (lowercased, spaces and
underscores removed, after trimming and stripping byte-order-mark and
non-breaking-space characters) matches a known canonical key is renamed
to the exact canonical name; a header with no matching key is left as
its stripped form; in particular " Channel Name " becomes "ChannelName"
and "Net_Weight_KGs" becomes "NetWeightKGs". -/
theorem c4_theorem :
    (∀ h c, renameMap (normKey (stripHeader h)) = some c → normalizeHeader h = c)
    ∧ (∀ h, renameMap (normKey (stripHeader h)) = none → normalizeHeader h = stripHeader h)
    ∧ normalizeHeader " Channel Name " = "ChannelName"
    ∧ normalizeHeader "Net_Weight_KGs" = "NetWeightKGs" := by
  refine ⟨?_, ?_, by decide, by decide⟩
  · intro h c hc
    unfold normalizeHeader
    rw [hc]
    rfl
  · intro h hc
    unfold normalizeHeader
    rw [hc]
    rfl

/-- C4 witness: the matched branch at "Sales_Category" and the unmatched
branch at "Qty", both with their hypotheses discharged by computation. -/
theorem c4_witness :
    normalizeHeader "Sales_Category" = "SalesCategory"
    ∧ normalizeHeader "Qty" = stripHeader "Qty" :=
  ⟨c4_theorem.1 "Sales_Category" "SalesCategory" (by decide),
   c4_theorem.2.1 "Qty" (by decide)⟩

/-! ### Claim C10: colliding headers -/

/-- C10: the two distinct raw headers " Channel Name " and "channel_name"
are both renamed to "ChannelName", producing a duplicated column name;
nothing detects or merges the collision. -/
theorem c10_theorem :
    normalizeHeaders [" Channel Name ", "channel_name"] = ["ChannelName", "ChannelName"]
    ∧ ¬ (normalizeHeaders [" Channel Name ", "channel_name"]).Nodup := by
  constructor
  · decide
  · decide

/-! ### Claim C1: weight and date invariants of the cleaned table -/

/-- C1 as stated is false: a parseable negative weight survives cleaning
unchanged, so cleaned `NetWeightKGs` values are not always ≥ 0. The
input is a single row whose weight cell parsed to -3. -/
theorem c1_counterexample :
    ¬ (∀ (t : List Row), ∀ r ∈ clean t,
        (0 ≤ rowWeight r) ∧ (∃ d, r.date = DateCell.valid d)) := by
  intro h
  have hm : derive (coerceRow negWeightRow) ∈ clean [negWeightRow] := by decide
  have h0 := (h [negWeightRow] _ hm).1
  have hw : rowWeight (derive (coerceRow negWeightRow)) = -3 := by decide
  rw [hw] at h0
  norm_num at h0

/-- C1 amended: every row of the cleaned table has a parsed (hence valid)
date and a numeric weight; the numeric coercion sends missing and
unparseable weights to 0 and keeps parsed values (of either sign); and
the row filter does not look at the weight, so no row is ever dropped
for its weight. -/
theorem c1_theorem :
    (∀ (t : List Row), ∀ r ∈ clean t,
        (∃ d, r.date = DateCell.valid d) ∧ (∃ q, r.netWeightKGs = NumCell.valid q))
    ∧ coerceNum NumCell.na = NumCell.valid 0
    ∧ (∀ s, coerceNum (NumCell.invalid s) = NumCell.valid 0)
    ∧ (∀ q, coerceNum (NumCell.valid q) = NumCell.valid q)
    ∧ (∀ (r : Row) (c : NumCell), keepRow { r with netWeightKGs := c } = keepRow r) := by
  refine ⟨?_, rfl, fun s => rfl, fun q => rfl, fun r c => rfl⟩
  intro t r hr
  rcases mem_clean t r hr with ⟨r1, _, rfl, hd, _, _⟩
  constructor
  · rw [derive_date]
    rcases coerceDate_valid_of r1.date hd with ⟨d, hdq⟩
    exact ⟨d, hdq⟩
  · rw [derive_netWeightKGs]
    exact coerceNum_valid r1.netWeightKGs

/-- C1 witness: the amended invariant instantiated on the cleaned
single-row table built from `exRow`. -/
theorem c1_witness :
    (∃ d, (derive (coerceRow exRow)).date = DateCell.valid d)
    ∧ (∃ q, (derive (coerceRow exRow)).netWeightKGs = NumCell.valid q) :=
  c1_theorem.1 [exRow] (derive (coerceRow exRow)) (by decide)

/-! ### Claim C2: text coercion and the name filters -/

/-- C2 as stated is false: text coercion maps the missing marker to the
string "nan" (not the empty string), so a row whose `ChannelName` is
missing is not removed by the cleaning stage. -/
theorem c2_counterexample :
    coerceText TextCell.na = TextCell.str "nan" ∧ clean [naChannelRow] ≠ [] := by
  constructor
  · decide
  · decide

/-- C2 amended: text coercion maps the missing marker to the non-empty
string "nan" and otherwise trims surrounding whitespace; only rows whose
coerced `ChannelName` or `ProductName` is the empty string are removed;
consequently in the cleaned table both fields are always non-empty
trimmed text. -/
theorem c2_theorem :
    coerceText TextCell.na = TextCell.str "nan"
    ∧ (∀ s, coerceText (TextCell.str s) = TextCell.str (pyStrip s))
    ∧ (∀ s, textNonEmpty (TextCell.str s) = true ↔ s ≠ "")
    ∧ (∀ (t : List Row), ∀ r ∈ clean t,
        (∃ s, r.channelName = TextCell.str s ∧ s ≠ "" ∧ pyStrip s = s)
        ∧ (∃ s, r.productName = TextCell.str s ∧ s ≠ "" ∧ pyStrip s = s)) := by
  refine ⟨by decide, fun s => rfl, ?_, ?_⟩
  · intro s
    simp [textNonEmpty]
  · intro t r hr
    rcases mem_clean t r hr with ⟨r1, _, rfl, _, hp, hc⟩
    constructor
    · rw [derive_channelName]
      rcases coerceText_str r1.channelName with ⟨s, hs, hfix⟩
      refine ⟨s, by rw [show (coerceRow r1).channelName = coerceText r1.channelName from rfl, hs], ?_, hfix⟩
      rw [show (coerceRow r1).channelName = coerceText r1.channelName from rfl, hs] at hc
      simpa [textNonEmpty] using hc
    · rw [derive_productName]
      rcases coerceText_str r1.productName with ⟨s, hs, hfix⟩
      refine ⟨s, by rw [show (coerceRow r1).productName = coerceText r1.productName from rfl, hs], ?_, hfix⟩
      rw [show (coerceRow r1).productName = coerceText r1.productName from rfl, hs] at hp
      simpa [textNonEmpty] using hp

/-- C2 witness: the amended invariant instantiated on the cleaned
single-row table built from `naChannelRow` (whose channel was missing). -/
theorem c2_witness :
    (∃ s, (derive (coerceRow naChannelRow)).channelName = TextCell.str s
        ∧ s ≠ "" ∧ pyStrip s = s)
    ∧ (∃ s, (derive (coerceRow naChannelRow)).productName = TextCell.str s
        ∧ s ≠ "" ∧ pyStrip s = s) :=
  (c2_theorem.2.2.2 [naChannelRow] (derive (coerceRow naChannelRow)) (by decide))

/-! ### Claim C5: idempotence of the cleaning stage -/

/-- C5 as stated is false: derivation overwrites a pre-existing `Month`
column after deduplication, so two rows identical except for their
pre-existing `Month` values become exact duplicates in the cleaned
output, and a second cleaning pass drops one of them. -/
theorem c5_counterexample :
    clean (clean [presetMonthRowA, presetMonthRowB])
      ≠ clean [presetMonthRowA, presetMonthRowB] := by
  decide

/-- C5 amended: on any table without pre-existing `Month`/`Day` column
values (in particular any raw file lacking those columns), the cleaning
stage is idempotent — re-cleaning its own output drops no rows and
changes no values. -/
theorem c5_theorem (t : List Row)
    (h : ∀ r ∈ t, r.month = none ∧ r.day = none) :
    clean (clean t) = clean t := by
  have hfix : ∀ r ∈ clean t, coerceRow r = r ∧ dateNotNa r.date = true
      ∧ textNonEmpty r.productName = true ∧ textNonEmpty r.channelName = true
      ∧ derive r = r := by
    intro r hr
    rcases mem_clean t r hr with ⟨r1, _, rfl, hd, hp, hc⟩
    refine ⟨coerceRow_derive _ (coerceRow_idem r1), ?_, ?_, ?_, derive_idem _⟩
    · rw [derive_date]; exact hd
    · rw [derive_productName]; exact hp
    · rw [derive_channelName]; exact hc
  have hmem_dd : ∀ x ∈ dropDuplicates (filterRows (t.map coerceRow)),
      x.month = none ∧ x.day = none := by
    intro x hx
    rcases mem_preclean t x hx with ⟨r1, hr1, rfl, _⟩
    exact h r1 hr1
  have hnodup : (clean t).Nodup := by
    unfold clean
    exact List.Nodup.map_on
      (fun x hx y hy hxy => derive_inj_on x y (hmem_dd x hx) (hmem_dd y hy) hxy)
      (nodup_dedupFirst _ _)
  have e0 : clean (clean t)
      = (dropDuplicates (filterRows ((clean t).map coerceRow))).map derive := rfl
  have e1 : (clean t).map coerceRow = clean t := by
    have hcg : (clean t).map coerceRow = (clean t).map id :=
      List.map_congr_left (fun r hr => (hfix r hr).1)
    rw [hcg, List.map_id]
  have e2 : filterRows (clean t) = clean t := by
    unfold filterRows
    rw [List.filter_eq_self.mpr (fun r hr => (hfix r hr).2.1),
        List.filter_eq_self.mpr (fun r hr => (hfix r hr).2.2.1),
        List.filter_eq_self.mpr (fun r hr => (hfix r hr).2.2.2.1)]
  have e3 : dropDuplicates (clean t) = clean t :=
    dedupFirst_eq_self (clean t) [] hnodup (fun x _ hx => by simp at hx)
  have e4 : (clean t).map derive = clean t := by
    have hcg : (clean t).map derive = (clean t).map id :=
      List.map_congr_left (fun r hr => (hfix r hr).2.2.2.2)
    rw [hcg, List.map_id]
  rw [e0, e1, e2, e3, e4]

/-- C5 witness: idempotence instantiated on a two-row table whose rows
carry no pre-existing `Month`/`Day` values. -/
theorem c5_witness : clean (clean [exRow, febRow]) = clean [exRow, febRow] :=
  c5_theorem [exRow, febRow] (by decide)

/-! ### Claim C6: the month-trend x axis is chronologically sorted -/

/-- C6: for every cleaned table the x axis of the month-trend chart is
the list of distinct `Month` labels in strictly ascending lexical
(code-point) order, independent of the summed weights; on the concrete
two-month table the axis is ["2024-01", "2024-02"] even though the
February sum (1) is far below the January sum (100). -/
theorem c6_theorem :
    (∀ t : List Row, (monthTrendX t).Sorted (fun a b => strLt a b = true)
      ∧ (∀ m, m ∈ monthTrendX t ↔ m ∈ t.map monthLabel))
    ∧ monthTrendX (clean [exRow, febRow]) = ["2024-01", "2024-02"]
    ∧ monthTrendY (clean [exRow, febRow]) = [100, 1] := by
  refine ⟨fun t => ⟨?_, ?_⟩, by decide, ?_⟩
  · have hs := sortStr_sorted (dedupFirst [] (t.map monthLabel))
    have hn : (sortStr (dedupFirst [] (t.map monthLabel))).Nodup :=
      (sortStr_perm _).nodup_iff.mpr (nodup_dedupFirst _ _)
    exact List.Pairwise.imp₂ (fun a b h1 h2 => strLt_of_le_of_ne h1 h2) hs hn
  · intro m
    simp [monthTrendX, uniqueMonths, uniqueKeys, sortStr, mem_dedupFirst]
  · have h1 : uniqueKeys (clean [exRow, febRow]) monthLabel
        = ["2024-01", "2024-02"] := by decide
    have h2 : (clean [exRow, febRow]).filter
        (fun r => monthLabel r == "2024-01") = [derive (coerceRow exRow)] := by decide
    have h3 : (clean [exRow, febRow]).filter
        (fun r => monthLabel r == "2024-02") = [derive (coerceRow febRow)] := by decide
    have h4 : rowWeight (derive (coerceRow exRow)) = 100 := by decide
    have h5 : rowWeight (derive (coerceRow febRow)) = 1 := by decide
    rw [monthTrendY, groupSum, h1]
    simp [h2, h3, sumWeights_cons, sumWeights_nil, h4, h5]

/-! ### Claim C3: behavior on a zero-row cleaned table -/

/-- C3 as stated is false: on an input whose cleaned table has zero rows
the interactive-dashboard stage does not complete — `unique_months[0]`
has no element to select (an `IndexError`, modelled as `none`). -/
theorem c3_counterexample : buildInteractive (clean []) = none := rfl

/-- C3 amended: for every input whose cleaned table has at least one row
the aggregation and chart-building stages complete without error; the
four static aggregations of a zero-row cleaned table produce charts with
empty axes (as do month-filtered panels over an empty table), but the
interactive-dashboard stage fails on a zero-row cleaned table when it
selects the initial month. -/
theorem c3_theorem :
    (∀ t : List Row, t ≠ [] → (buildInteractive t).isSome = true)
    ∧ monthTrendX (clean []) = []
    ∧ monthTrendY (clean []) = []
    ∧ channelChart (clean []) = []
    ∧ (∀ m, panelX (filterMonth (clean []) m) chanOf = []
        ∧ panelY (filterMonth (clean []) m) chanOf = []) := by
  refine ⟨?_, rfl, rfl, rfl, fun m => ⟨rfl, rfl⟩⟩
  intro t ht
  have hlen : (uniqueMonths t).length = (dedupFirst [] (t.map monthLabel)).length :=
    List.length_insertionSort _ _
  cases hml : t.map monthLabel with
  | nil => exact absurd (List.map_eq_nil_iff.mp hml) ht
  | cons m ms =>
    have hdd : dedupFirst [] (t.map monthLabel) = m :: dedupFirst [m] ms := by
      rw [hml]; simp [dedupFirst]
    cases hu : uniqueMonths t with
    | nil =>
      rw [hu, hdd] at hlen
      simp at hlen
    | cons m0 rest =>
      unfold buildInteractive
      rw [hu]
      rfl

/-- C3 witness: the nonempty branch instantiated on the cleaned
single-row table built from `exRow`. -/
theorem c3_witness : (buildInteractive (clean [exRow])).isSome = true :=
  c3_theorem.1 (clean [exRow]) (by decide)

/-! ### Claim C8: the month selector never touches the trend panel -/

/-- C8: for every nonempty cleaned table, the interactive dashboard's
trend trace carries the Month aggregation of the entire unfiltered
table, and every dropdown button writes exactly that same pair into the
fourth (trend) slot of its x/y update arrays while its first three
slots carry the month-filtered channel, sales-category and product
panels — so selecting any month replaces the three filtered panels and
leaves the trend panel equal to the full-table aggregation. -/
theorem c8_theorem (t : List Row) (ht : t ≠ []) :
    dashTrend t = some ((groupSum t monthLabel).map Prod.fst,
                        (groupSum t monthLabel).map Prod.snd)
    ∧ dashButtons t = some ((uniqueMonths t).map (buttonFor t))
    ∧ (∀ m ∈ uniqueMonths t,
        (buttonFor t m).xs[3]? = some ((groupSum t monthLabel).map Prod.fst)
        ∧ (buttonFor t m).ys[3]? = some ((groupSum t monthLabel).map Prod.snd)
        ∧ (buttonFor t m).xs[0]? = some (panelX (filterMonth t m) chanOf)
        ∧ (buttonFor t m).ys[0]? = some (panelY (filterMonth t m) chanOf)
        ∧ (buttonFor t m).xs[1]? = some (panelX (filterMonth t m) salesOf)
        ∧ (buttonFor t m).ys[1]? = some (panelY (filterMonth t m) salesOf)
        ∧ (buttonFor t m).xs[2]? = some (panelX (filterMonth t m) prodOf)
        ∧ (buttonFor t m).ys[2]? = some (panelY (filterMonth t m) prodOf)) := by
  have hlen : (uniqueMonths t).length = (dedupFirst [] (t.map monthLabel)).length :=
    List.length_insertionSort _ _
  obtain ⟨m0, rest, hu⟩ : ∃ m0 rest, uniqueMonths t = m0 :: rest := by
    cases hml : t.map monthLabel with
    | nil => exact absurd (List.map_eq_nil_iff.mp hml) ht
    | cons m ms =>
      have hdd : dedupFirst [] (t.map monthLabel) = m :: dedupFirst [m] ms := by
        rw [hml]; simp [dedupFirst]
      cases hu2 : uniqueMonths t with
      | nil =>
        rw [hu2, hdd] at hlen
        simp at hlen
      | cons a b => exact ⟨a, b, rfl⟩
  refine ⟨?_, ?_, fun m _ => ⟨rfl, rfl, rfl, rfl, rfl, rfl, rfl, rfl⟩⟩
  · unfold dashTrend buildInteractive
    rw [hu]
    rfl
  · unfold dashButtons buildInteractive
    rw [hu]
    rfl

/-- C8 witness: the trend payload of the dashboard built from the
cleaned two-month table. -/
theorem c8_witness :
    dashTrend (clean [exRow, febRow])
      = some ((groupSum (clean [exRow, febRow]) monthLabel).map Prod.fst,
              (groupSum (clean [exRow, febRow]) monthLabel).map Prod.snd) :=
  (c8_theorem (clean [exRow, febRow]) (by decide)).1

/-! ### Claim C9: aggregation totals -/

theorem sum_map_add (A B : String → ℚ) : ∀ l : List String,
    (l.map (fun k => A k + B k)).sum = (l.map A).sum + (l.map B).sum := by
  intro l
  induction l with
  | nil => simp
  | cons a l ih => simp [ih]; ring

theorem sum_ite_single : ∀ keys : List String, keys.Nodup →
    ∀ a : String, a ∈ keys → ∀ w : ℚ,
    (keys.map (fun k => if a = k then w else 0)).sum = w := by
  intro keys
  induction keys with
  | nil => intro _ a ha; cases ha
  | cons k ks ih =>
    intro hnd a ha w
    rcases List.mem_cons.mp ha with rfl | ha'
    · have hnot : a ∉ ks := (List.nodup_cons.mp hnd).1
      have hz : ∀ x ∈ ks, (if a = x then w else 0) = 0 := by
        intro x hx
        exact if_neg (fun he => hnot (by rw [he]; exact hx))
      have hmap : (ks.map (fun x => if a = x then w else 0)).sum = 0 := by
        rw [List.map_congr_left hz]
        simp
      simp [hmap]
    · have hka : a ≠ k := by
        intro he
        subst he
        exact (List.nodup_cons.mp hnd).1 ha'
      have hrec := ih (List.nodup_cons.mp hnd).2 a ha' w
      simp [hka, hrec]

theorem sum_over_keys (f : Row → String) : ∀ (t : List Row) (keys : List String),
    keys.Nodup → (∀ r ∈ t, f r ∈ keys) →
    (keys.map (fun k => sumWeights (t.filter (fun r => f r == k)))).sum = sumWeights t := by
  intro t
  induction t with
  | nil =>
    intro keys _ _
    have hz : ∀ k ∈ keys, sumWeights (List.filter (fun r => f r == k) []) = 0 :=
      fun k _ => rfl
    rw [List.map_congr_left hz]
    simp [sumWeights]
  | cons r rs ih =>
    intro keys hnd hcov
    have hcov' : ∀ x ∈ rs, f x ∈ keys := fun x hx => hcov x (List.mem_cons_of_mem _ hx)
    have hstep : ∀ k ∈ keys, sumWeights ((r :: rs).filter (fun x => f x == k))
        = (if f r = k then rowWeight r else 0)
          + sumWeights (rs.filter (fun x => f x == k)) := by
      intro k _
      by_cases hfk : f r = k
      · have hb : (f r == k) = true := by simp [hfk]
        rw [List.filter_cons, if_pos hb, sumWeights_cons, if_pos hfk]
      · have hb : ¬ (f r == k) = true := by simp [hfk]
        rw [List.filter_cons, if_neg hb, if_neg hfk, zero_add]
    rw [List.map_congr_left hstep,
        sum_map_add (fun k => if f r = k then rowWeight r else 0)
          (fun k => sumWeights (rs.filter (fun x => f x == k))) keys,
        ih keys hnd hcov',
        sum_ite_single keys hnd (f r) (hcov r (List.mem_cons_self r rs)) (rowWeight r),
        sumWeights_cons]

theorem groupSum_total (t : List Row) (f : Row → String) :
    ((groupSum t f).map Prod.snd).sum = sumWeights t := by
  have hnd : (uniqueKeys t f).Nodup :=
    (sortStr_perm _).nodup_iff.mpr (nodup_dedupFirst _ _)
  have hcov : ∀ r ∈ t, f r ∈ uniqueKeys t f := by
    intro r hr
    unfold uniqueKeys sortStr
    rw [List.mem_insertionSort, mem_dedupFirst]
    exact ⟨List.mem_map_of_mem f hr, by simp⟩
  have hsnd : (groupSum t f).map Prod.snd
      = (uniqueKeys t f).map (fun k => sumWeights (t.filter (fun r => f r == k))) := by
    unfold groupSum
    rw [List.map_map]
    rfl
  rw [hsnd]
  exact sum_over_keys f t (uniqueKeys t f) hnd hcov

/-- C9: for each of the four grouped aggregations (by ChannelName,
Month, SalesCategory, ProductName) the sum of the per-group
`NetWeightKGs` sums equals the sum of `NetWeightKGs` over the whole
table. -/
theorem c9_theorem (t : List Row) :
    ((groupSum t chanOf).map Prod.snd).sum = sumWeights t
    ∧ ((groupSum t monthLabel).map Prod.snd).sum = sumWeights t
    ∧ ((groupSum t salesOf).map Prod.snd).sum = sumWeights t
    ∧ ((groupSum t prodOf).map Prod.snd).sum = sumWeights t :=
  ⟨groupSum_total t chanOf, groupSum_total t monthLabel,
   groupSum_total t salesOf, groupSum_total t prodOf⟩

/-! ### Claim C7: the filtered panels pair x and y inconsistently -/

/-- C7 concerns a genuine code defect: the script builds a filtered
panel's x array from the groupby index (keys ascending) but its y array
from the value-sorted sums, so the i-th category is not paired with its
own sum. On the January table with channel sums A ↦ 1 and B ↦ 2 the
panel presents x = ["A", "B"] against y = [2, 1], pairing channel "A"
with channel "B"'s total. -/
theorem c7_code_eval :
    groupSum (filterMonth (clean [chanARow, chanBRow]) "2024-01") chanOf
        = [("A", 1), ("B", 2)]
    ∧ panelX (filterMonth (clean [chanARow, chanBRow]) "2024-01") chanOf = ["A", "B"]
    ∧ panelY (filterMonth (clean [chanARow, chanBRow]) "2024-01") chanOf = [2, 1] := by
  have hflt : filterMonth (clean [chanARow, chanBRow]) "2024-01"
      = [derive (coerceRow chanARow), derive (coerceRow chanBRow)] := by decide
  have hkeys : uniqueKeys [derive (coerceRow chanARow), derive (coerceRow chanBRow)] chanOf
      = ["A", "B"] := by decide
  have hfA : [derive (coerceRow chanARow), derive (coerceRow chanBRow)].filter
      (fun r => chanOf r == "A") = [derive (coerceRow chanARow)] := by decide
  have hfB : [derive (coerceRow chanARow), derive (coerceRow chanBRow)].filter
      (fun r => chanOf r == "B") = [derive (coerceRow chanBRow)] := by decide
  have hwA : rowWeight (derive (coerceRow chanARow)) = 1 := by decide
  have hwB : rowWeight (derive (coerceRow chanBRow)) = 2 := by decide
  have hg : groupSum (filterMonth (clean [chanARow, chanBRow]) "2024-01") chanOf
      = [("A", 1), ("B", 2)] := by
    rw [hflt, groupSum, hkeys]
    simp [hfA, hfB, sumWeights_cons, sumWeights_nil, hwA, hwB]
  refine ⟨hg, ?_, ?_⟩
  · rw [panelX, hg]
    rfl
  · rw [panelY, hg]
    decide

end RefreshExport
